import Mathlib

/-!
# Verification of the sentimentomatic per-line scoring pipeline

A shallow embedding of `src/FlaskApp/flaskapp.py` (the `my_form_post`
request handler) together with proofs of the specification's testable
properties.

Modelling decisions:

* A Python string is modelled as a `List Char` (one element per code
  point, so `len(text)` is `List.length`).
* `str.splitlines` is modelled by `splitlines`, reproducing Python's
  line-boundary set (`\n`, `\r`, `\r\n`, `\x0b`, `\x0c`, `\x1c`-`\x1e`,
  `\x85`, `\u2028`, `\u2029`) and its rule that a trailing terminator
  does not open an extra empty line.
* Engine internals (VADER, TextBlob, and the Perspective HTTP call) are
  third-party libraries; their numeric outputs are oracles collected in
  the `Oracles` structure.  The Perspective oracle is indexed by the
  line position so that distinct network calls may behave differently;
  it returns `Except` to model a raised exception (`str(e)` is the
  carried message).
* Python's `round(x, 3)` is modelled on `ℚ` by `round3`
  (round-half-to-even at the third decimal).
* The handler itself (`my_form_post`) is a direct transcription of the
  source: the acceptance guard, the per-line loop building one record
  per line, the `np.arange(1, len+1)` display index, the echo of the
  raw text, and the three rejection branches.
-/

/-- Python line-boundary characters recognised by `str.splitlines`. -/
def isLineBreak (c : Char) : Bool :=
  c = '\n' || c = '\r' || c = '\x0b' || c = '\x0c' ||
  c = '\x1c' || c = '\x1d' || c = '\x1e' || c = '\x85' ||
  c = '\u2028' || c = '\u2029'

/-- Rewrite each two-character `\r\n` boundary into a single `\n`, so
that the splitter below can treat every boundary as one character. -/
def normCRLF : List Char → List Char
  | [] => []
  | '\r' :: '\n' :: rest => '\n' :: normCRLF rest
  | c :: rest => c :: normCRLF rest

/-- Worker for `splitlines`: `acc` is the (reversed) current line. -/
def splitlinesGo : List Char → List Char → List (List Char)
  | [], acc => [acc.reverse]
  | c :: rest, acc =>
    if isLineBreak c then
      acc.reverse :: (if rest.isEmpty then [] else splitlinesGo rest [])
    else
      splitlinesGo rest (c :: acc)

/-- Python's `str.splitlines` on a list of characters. -/
def splitlines (l : List Char) : List (List Char) :=
  if l.isEmpty then [] else splitlinesGo (normCRLF l) []

/-! ## The sanitizer

Modelled from the spec: the sanitizer is the third-party
`html_sanitizer` library (configured in the source with the tag
allow-list `{a, hr, br, b, li, p}`, `keep_typographic_whitespace=True`
and an empty `whitespace` set); its implementation is not part of this
repository.  Following the spec's contract — deterministic, pure,
total, drops markup outside the explicit allow-list, and with this
configuration performs no whitespace rewriting — it is modelled as an
allow-list tag filter: a `<`…`>` region whose tag name is allowed is
kept verbatim, any other `<`…`>` region is dropped, an unterminated
`<` drops the remainder, and all other text passes through unchanged. -/

/-- Split off the characters before the first `'>'` and the rest after it. -/
def untilGt : List Char → Option (List Char × List Char)
  | [] => none
  | c :: rest =>
    if c = '>' then some ([], rest)
    else
      match untilGt rest with
      | none => none
      | some p => some (c :: p.1, p.2)

/-- The tag name of the inside of a markup region: an optional leading
slash is skipped and the alphabetic prefix is lower-cased. -/
def tagName (inner : List Char) : List Char :=
  let body := match inner with
    | '/' :: r => r
    | _ => inner
  (body.takeWhile fun c => c.isAlpha).map Char.toLower

/-- The allow-list of tags configured in the source:
`{"a", "hr", "br", "b", "li", "p"}`. -/
def allowedTags : List (List Char) :=
  [['a'], ['h', 'r'], ['b', 'r'], ['b'], ['l', 'i'], ['p']]

/-- Whether a markup region's tag is on the allow-list. -/
def allowedTag (inner : List Char) : Bool :=
  allowedTags.contains (tagName inner)

theorem untilGt_snd_length_lt :
    ∀ l p, untilGt l = some p → p.2.length < l.length := by
  intro l
  induction l with
  | nil => intro p h; simp [untilGt] at h
  | cons c rest ih =>
    intro p h
    by_cases hc : c = '>'
    · simp [untilGt, hc] at h
      subst h
      simp
    · simp [untilGt, hc] at h
      cases hrec : untilGt rest with
      | none => rw [hrec] at h; simp at h
      | some q =>
        rw [hrec] at h
        simp at h
        have := ih q hrec
        subst h
        simpa using Nat.lt_succ_of_lt this

/-- The sanitizer (see the modelling note above). -/
def sanitize : List Char → List Char
  | [] => []
  | c :: rest =>
    if c = '<' then
      match _h : untilGt rest with
      | none => []
      | some p =>
        if allowedTag p.1 then '<' :: p.1 ++ '>' :: sanitize p.2
        else sanitize p.2
    else c :: sanitize rest
termination_by l => l.length
decreasing_by
  · exact Nat.lt_succ_of_lt (untilGt_snd_length_lt rest _ _h)
  · exact Nat.lt_succ_of_lt (untilGt_snd_length_lt rest _ _h)
  · simp

/-! ## Rounding

Python's `round(x, 3)` rounds half to even.  (The engines return
binary floats; their exact values are abstracted as rationals.) -/

/-- Round a rational to the nearest integer, ties to even. -/
def roundHalfEven (x : ℚ) : ℤ :=
  let f := ⌊x⌋
  let r := x - f
  if r < 1 / 2 then f
  else if 1 / 2 < r then f + 1
  else if f % 2 = 0 then f else f + 1

/-- Python's `round(x, 3)`. -/
def round3 (x : ℚ) : ℚ := (roundHalfEven (x * 1000) : ℚ) / 1000

/-! ## Data model -/

/-- One engine cell of a result row: either a numeric score or the
error string stored by the `except` branch. -/
inductive Cell where
  | score (q : ℚ)
  | err (msg : List Char)
deriving DecidableEq

/-- The scoring-engine oracles (third-party library behaviour).
`perspective` is indexed by the line position so that each network
call may independently succeed or fail. -/
structure Oracles where
  vader : List Char → ℚ
  tbPolarity : List Char → ℚ
  tbSubjectivity : List Char → ℚ
  perspective : Nat → List Char → Except (List Char) ℚ

/-- One row of the result table: the dict built per line in the loop.
`perspective = none` models the absence of the perspective key (and
hence of the column) when the opt-in flag is off. -/
structure ResultRow where
  text : List Char
  vader : ℚ
  tbPolarity : ℚ
  tbSubjectivity : ℚ
  perspective : Option Cell
deriving DecidableEq

/-- The prefix `"ERROR: "` prepended to a caught exception's text. -/
def errHead : List Char := "ERROR: ".data

/-- The text `str(e)` of the pre-check exception raised when a sanitized line
is longer than 2900 characters. -/
def lineTooLongMsg : List Char := "Line too long (max 2500 characters)".data

/-- The perspective engine step for one line: the local pre-check
(`len(safe_row) > 2900` raises before any network call), then the
network call.  The second component records whether the
`client.comments().analyze(...).execute()` call was attempted. -/
def perspectiveCell (o : Oracles) (i : Nat) (safe : List Char) : Cell × Bool :=
  if safe.length > 2900 then (.err (errHead ++ lineTooLongMsg), false)
  else
    match o.perspective i safe with
    | .ok q => (.score (round3 q), true)
    | .error e => (.err (errHead ++ e), true)

/-- The body of the per-line loop: sanitize once, apply every local
engine to the sanitized text, and (when opted in) the remote engine.
Returns the row together with the network-call flag. -/
def processLine (papi : Bool) (o : Oracles) (i : Nat) (row : List Char) :
    ResultRow × Bool :=
  let safe := sanitize row
  let pc := if papi then some (perspectiveCell o i safe) else none
  ({ text := safe
     vader := round3 (o.vader safe)
     tbPolarity := round3 (o.tbPolarity safe)
     tbSubjectivity := round3 (o.tbSubjectivity safe)
     perspective := pc.map Prod.fst },
   (pc.map Prod.snd).getD false)

/-- The loop over `text.splitlines()`, accumulating `results_list`.
`i` is the position of the first remaining line. -/
def buildRows (papi : Bool) (o : Oracles) : List (List Char) → Nat → List ResultRow
  | [], _ => []
  | r :: rs, i => (processLine papi o i r).1 :: buildRows papi o rs (i + 1)

/-- The per-line network-call flags of the same loop. -/
def buildCalls (papi : Bool) (o : Oracles) : List (List Char) → Nat → List Bool
  | [], _ => []
  | r :: rs, i => (processLine papi o i r).2 :: buildCalls papi o rs (i + 1)

/-- The handler's response: either the rendered table (display index,
rows, and the `text1` echoed back into the form) or one of the three
rejection messages, each carrying the measured value it interpolates. -/
inductive Response where
  | table (idx : List Nat) (rows : List ResultRow) (text1 : List Char)
  | tooManyLines (n : Nat)
  | tooLarge (n : Nat)
  | verificationFailed
deriving DecidableEq

/-- The acceptance guard:
`recaptcha.verify() and len(text.splitlines())<52 and len(text)<125000`. -/
def acceptCond (verify : Bool) (text : List Char) : Prop :=
  verify = true ∧ (splitlines text).length < 52 ∧ text.length < 125000

instance (verify : Bool) (text : List Char) : Decidable (acceptCond verify text) := by
  unfold acceptCond
  exact inferInstance

/-- The POST handler `my_form_post`, transcribed from the source.
`verify` is the recaptcha result and `papi` the remote opt-in flag
(`request.form.get("papi")` truthiness). -/
def my_form_post (verify papi : Bool) (o : Oracles) (text : List Char) : Response :=
  if acceptCond verify text then
    let rows := buildRows papi o (splitlines text) 0
    .table (List.range' 1 rows.length) rows text
  else if (splitlines text).length > 51 then .tooManyLines (splitlines text).length
  else if text.length > 125000 then .tooLarge text.length
  else .verificationFailed

/-- The network-call flags of a whole request (empty when rejected:
the loop never runs). -/
def analyzeCalls (verify papi : Bool) (o : Oracles) (text : List Char) : List Bool :=
  if acceptCond verify text then buildCalls papi o (splitlines text) 0 else []

/-- The rows of a response, empty for rejections. -/
def Response.rowsOf : Response → List ResultRow
  | .table _ rows _ => rows
  | _ => []

/-- The echoed `text1` of a successful response. -/
def Response.echoOf : Response → Option (List Char)
  | .table _ _ t => some t
  | _ => none

/-- Whether a response is a rejection. -/
def Response.isReject : Response → Bool
  | .table _ _ _ => false
  | _ => true

/-- A constant oracle assembly used for concrete evaluations. -/
def o0 : Oracles :=
  { vader := fun _ => 0
    tbPolarity := fun _ => 0
    tbSubjectivity := fun _ => 0
    perspective := fun _ _ => .ok 0 }

/-- A default row for safe indexing. -/
def defaultRow : ResultRow :=
  { text := [], vader := 0, tbPolarity := 0, tbSubjectivity := 0, perspective := none }

/-! ## Lemmas about the sanitizer -/

theorem sanitize_nil : sanitize [] = [] := by simp [sanitize]

theorem sanitize_cons_ne (c : Char) (rest : List Char) (hc : c ≠ '<') :
    sanitize (c :: rest) = c :: sanitize rest := by
  rw [sanitize.eq_def]
  simp only [reduceIte, hc, if_neg]

theorem sanitize_lt_none (rest : List Char) (h : untilGt rest = none) :
    sanitize ('<' :: rest) = [] := by
  rw [sanitize.eq_def]
  simp only [reduceIte]
  split
  · rfl
  · rename_i p heq
    rw [h] at heq
    cases heq

theorem sanitize_lt_some (rest : List Char) (p : List Char × List Char)
    (h : untilGt rest = some p) :
    sanitize ('<' :: rest) =
      if allowedTag p.1 then '<' :: p.1 ++ '>' :: sanitize p.2
      else sanitize p.2 := by
  rw [sanitize.eq_def]
  simp only [reduceIte]
  split
  · rename_i heq
    rw [h] at heq
    cases heq
  · rename_i q heq
    rw [h] at heq
    cases heq
    rfl

theorem sanitize_of_no_lt (l : List Char) (h : '<' ∉ l) : sanitize l = l := by
  induction l with
  | nil => exact sanitize_nil
  | cons c rest ih =>
    have hc : c ≠ '<' := by intro hc; exact h (hc ▸ List.mem_cons_self c rest)
    have hr : '<' ∉ rest := fun hm => h (List.mem_cons_of_mem c hm)
    rw [sanitize_cons_ne c rest hc, ih hr]

theorem untilGt_spec :
    ∀ l p, untilGt l = some p → '>' ∉ p.1 ∧ l = p.1 ++ '>' :: p.2 := by
  intro l
  induction l with
  | nil => intro p h; simp [untilGt] at h
  | cons c rest ih =>
    intro p h
    by_cases hc : c = '>'
    · simp [untilGt, hc] at h
      subst h
      simp [hc]
    · simp only [untilGt, if_neg hc] at h
      cases hrec : untilGt rest with
      | none => rw [hrec] at h; simp at h
      | some q =>
        rw [hrec] at h
        simp only [Option.some.injEq] at h
        obtain ⟨hq1, hq2⟩ := ih q hrec
        subst h
        constructor
        · simp only [List.mem_cons, not_or]
          exact ⟨fun he => hc he.symm, hq1⟩
        · simp [hq2]

theorem untilGt_append (inner : List Char) (xs : List Char) (h : '>' ∉ inner) :
    untilGt (inner ++ '>' :: xs) = some (inner, xs) := by
  induction inner with
  | nil => simp [untilGt]
  | cons c rest ih =>
    have hc : c ≠ '>' := by intro hc; exact h (hc ▸ List.mem_cons_self c rest)
    have hr : '>' ∉ rest := fun hm => h (List.mem_cons_of_mem c hm)
    simp [untilGt, hc, ih hr]

/-- Idempotence of the sanitizer: sanitizing already-sanitized text
returns it unchanged. -/
theorem sanitize_sanitize (l : List Char) : sanitize (sanitize l) = sanitize l := by
  induction l using sanitize.induct with
  | case1 => rw [sanitize_nil, sanitize_nil]
  | case2 rest hnone => rw [sanitize_lt_none rest hnone, sanitize_nil]
  | case3 rest p hsome hallow ih =>
    obtain ⟨hgt, _⟩ := untilGt_spec rest p hsome
    have h1 : sanitize ('<' :: rest) = '<' :: p.1 ++ '>' :: sanitize p.2 := by
      rw [sanitize_lt_some rest p hsome, if_pos hallow]
    rw [h1]
    have h2 : untilGt (p.1 ++ '>' :: sanitize p.2) = some (p.1, sanitize p.2) :=
      untilGt_append p.1 (sanitize p.2) hgt
    have h3 : sanitize ('<' :: (p.1 ++ '>' :: sanitize p.2)) =
        '<' :: p.1 ++ '>' :: sanitize (sanitize p.2) := by
      rw [sanitize_lt_some _ _ h2, if_pos hallow]
    calc sanitize ('<' :: (p.1 ++ '>' :: sanitize p.2))
        = '<' :: p.1 ++ '>' :: sanitize (sanitize p.2) := h3
      _ = '<' :: p.1 ++ '>' :: sanitize p.2 := by rw [ih]
  | case4 rest p hsome hallow ih =>
    have h1 : sanitize ('<' :: rest) = sanitize p.2 := by
      rw [sanitize_lt_some rest p hsome, if_neg hallow]
    rw [h1, ih]
  | case5 c rest hc ih =>
    rw [sanitize_cons_ne c rest hc, sanitize_cons_ne c (sanitize rest) hc, ih]

/-! ## Lemmas about the line splitter -/

theorem normCRLF_of_no_cr (l : List Char) (h : '\r' ∉ l) : normCRLF l = l := by
  induction l with
  | nil => simp [normCRLF]
  | cons c rest ih =>
    have hc : c ≠ '\r' := by intro hc; exact h (hc ▸ List.mem_cons_self c rest)
    have hr : '\r' ∉ rest := fun hm => h (List.mem_cons_of_mem c hm)
    have step : normCRLF (c :: rest) = c :: normCRLF rest := by
      rw [normCRLF.eq_def]
      split <;> simp_all
    rw [step, ih hr]

theorem splitlinesGo_append (l : List Char) (h : ∀ c ∈ l, isLineBreak c = false) :
    ∀ (rest acc : List Char),
      splitlinesGo (l ++ '\n' :: rest) acc =
        (acc.reverse ++ l) :: (if rest.isEmpty then [] else splitlinesGo rest []) := by
  induction l with
  | nil =>
    intro rest acc
    simp [splitlinesGo, isLineBreak]
  | cons c l' ih =>
    intro rest acc
    have hc : isLineBreak c = false := h c (List.mem_cons_self c l')
    have hl' : ∀ c ∈ l', isLineBreak c = false :=
      fun x hx => h x (List.mem_cons_of_mem c hx)
    simp only [List.cons_append, splitlinesGo, hc, Bool.false_eq_true, if_false,
      List.append_eq]
    rw [ih hl' rest (c :: acc)]
    simp

theorem splitlinesGo_noBreak (l : List Char) (h : ∀ c ∈ l, isLineBreak c = false) :
    ∀ acc : List Char, splitlinesGo l acc = [acc.reverse ++ l] := by
  induction l with
  | nil => intro acc; simp [splitlinesGo]
  | cons c l' ih =>
    intro acc
    have hc : isLineBreak c = false := h c (List.mem_cons_self c l')
    have hl' : ∀ c ∈ l', isLineBreak c = false :=
      fun x hx => h x (List.mem_cons_of_mem c hx)
    simp only [splitlinesGo, hc]
    rw [ih hl' (c :: acc)]
    simp

/-- A single line with no break characters splits into itself. -/
theorem splitlines_single (l : List Char) (hne : l ≠ [])
    (h : ∀ c ∈ l, isLineBreak c = false) : splitlines l = [l] := by
  have hcr : '\r' ∉ l := by
    intro hm
    have := h '\r' hm
    simp [isLineBreak] at this
  rw [splitlines]
  rw [if_neg (by simpa [List.isEmpty_iff] using hne)]
  rw [normCRLF_of_no_cr l hcr, splitlinesGo_noBreak l h]
  simp

/-- Proof helper: `k` copies of `line`, each terminated by `\n`. -/
def encodeLines (k : Nat) (line : List Char) : List Char :=
  (List.replicate k (line ++ ['\n'])).flatten

theorem encodeLines_succ (k : Nat) (line : List Char) :
    encodeLines (k + 1) line = line ++ '\n' :: encodeLines k line := by
  simp [encodeLines, List.replicate_succ]

theorem encodeLines_length (k : Nat) (line : List Char) :
    (encodeLines k line).length = k * (line.length + 1) := by
  simp [encodeLines, List.length_flatten, List.map_replicate, List.sum_replicate,
    smul_eq_mul]

theorem encodeLines_no_cr (k : Nat) (line : List Char) (h : '\r' ∉ line) :
    '\r' ∉ encodeLines k line := by
  induction k with
  | zero => simp [encodeLines]
  | succ n ih =>
    rw [encodeLines_succ]
    simp only [List.mem_append, List.mem_cons, not_or]
    refine ⟨h, by decide, ih⟩

theorem splitlinesGo_encode (line : List Char)
    (h : ∀ c ∈ line, isLineBreak c = false) :
    ∀ k, 1 ≤ k → splitlinesGo (encodeLines k line) [] = List.replicate k line := by
  intro k
  induction k with
  | zero => omega
  | succ n ih =>
    intro _
    rw [encodeLines_succ, splitlinesGo_append line h]
    rcases Nat.eq_zero_or_pos n with hn | hn
    · subst hn
      simp [encodeLines]
    · have hne : (encodeLines n line).isEmpty = false := by
        obtain ⟨m, rfl⟩ := Nat.exists_eq_add_of_le hn
        rw [Nat.add_comm, encodeLines_succ]
        simp [List.isEmpty_iff]
      rw [hne]
      simp only [Bool.false_eq_true, if_false]
      rw [ih hn]
      simp [List.replicate_succ]

/-- Splitting `k ≥ 1` newline-terminated copies of a break-free line
yields exactly `k` lines. -/
theorem splitlines_encode (line : List Char) (k : Nat) (hk : 1 ≤ k)
    (h : ∀ c ∈ line, isLineBreak c = false) :
    splitlines (encodeLines k line) = List.replicate k line := by
  have hcr : '\r' ∉ line := by
    intro hm
    have := h '\r' hm
    simp [isLineBreak] at this
  have hne : (encodeLines k line).isEmpty = false := by
    obtain ⟨m, rfl⟩ := Nat.exists_eq_add_of_le hk
    rw [Nat.add_comm, encodeLines_succ]
    simp [List.isEmpty_iff]
  rw [splitlines, hne]
  simp only [Bool.false_eq_true, if_false]
  rw [normCRLF_of_no_cr _ (encodeLines_no_cr k line hcr)]
  exact splitlinesGo_encode line h k hk

/-! ## Lemmas about the per-line loop -/

theorem buildRows_length (papi : Bool) (o : Oracles) :
    ∀ (rs : List (List Char)) (i : Nat), (buildRows papi o rs i).length = rs.length := by
  intro rs
  induction rs with
  | nil => intro i; simp [buildRows]
  | cons r rs ih => intro i; simp [buildRows, ih]

theorem buildCalls_length (papi : Bool) (o : Oracles) :
    ∀ (rs : List (List Char)) (i : Nat), (buildCalls papi o rs i).length = rs.length := by
  intro rs
  induction rs with
  | nil => intro i; simp [buildCalls]
  | cons r rs ih => intro i; simp [buildCalls, ih]

theorem buildRows_getD (papi : Bool) (o : Oracles) :
    ∀ (rs : List (List Char)) (i j : Nat), j < rs.length →
      (buildRows papi o rs i).getD j defaultRow =
        (processLine papi o (i + j) (rs.getD j [])).1 := by
  intro rs
  induction rs with
  | nil => intro i j hj; simp at hj
  | cons r rs ih =>
    intro i j hj
    cases j with
    | zero => simp [buildRows]
    | succ j' =>
      have hj' : j' < rs.length := by
        simp only [List.length_cons] at hj
        omega
      have harith : i + 1 + j' = i + (j' + 1) := by omega
      simp only [buildRows, List.getD_cons_succ]
      rw [ih (i + 1) j' hj', harith]

theorem buildCalls_getD (papi : Bool) (o : Oracles) :
    ∀ (rs : List (List Char)) (i j : Nat), j < rs.length →
      (buildCalls papi o rs i).getD j false =
        (processLine papi o (i + j) (rs.getD j [])).2 := by
  intro rs
  induction rs with
  | nil => intro i j hj; simp at hj
  | cons r rs ih =>
    intro i j hj
    cases j with
    | zero => simp [buildCalls]
    | succ j' =>
      have hj' : j' < rs.length := by
        simp only [List.length_cons] at hj
        omega
      have harith : i + 1 + j' = i + (j' + 1) := by omega
      simp only [buildCalls, List.getD_cons_succ]
      rw [ih (i + 1) j' hj', harith]

/-- Each produced row comes from `processLine` on some line. -/
theorem buildRows_mem (papi : Bool) (o : Oracles) :
    ∀ (rs : List (List Char)) (i : Nat) (row : ResultRow),
      row ∈ buildRows papi o rs i →
        ∃ i' r, row = (processLine papi o i' r).1 := by
  intro rs
  induction rs with
  | nil => intro i row h; simp [buildRows] at h
  | cons r rs ih =>
    intro i row h
    simp only [buildRows, List.mem_cons] at h
    rcases h with h | h
    · exact ⟨i, r, h⟩
    · exact ih (i + 1) row h

/-- The function `processLine` depends on the perspective oracle only at its own
index (and on the local oracles pointwise). -/
theorem processLine_congr (papi : Bool) (o o' : Oracles) (t : Nat)
    (hp : ∀ j, j ≠ t → o'.perspective j = o.perspective j)
    (hv : o'.vader = o.vader) (h2 : o'.tbPolarity = o.tbPolarity)
    (h3 : o'.tbSubjectivity = o.tbSubjectivity)
    (i : Nat) (hi : i ≠ t) (r : List Char) :
    processLine papi o' i r = processLine papi o i r := by
  simp only [processLine, perspectiveCell, hv, h2, h3, hp i hi]

theorem my_form_post_accept (verify papi : Bool) (o : Oracles) (text : List Char)
    (h : acceptCond verify text) :
    my_form_post verify papi o text =
      .table (List.range' 1 (buildRows papi o (splitlines text) 0).length)
        (buildRows papi o (splitlines text) 0) text := by
  simp [my_form_post, h]

theorem analyzeCalls_accept (verify papi : Bool) (o : Oracles) (text : List Char)
    (h : acceptCond verify text) :
    analyzeCalls verify papi o text = buildCalls papi o (splitlines text) 0 := by
  simp [analyzeCalls, h]

theorem replicate_char_ne_nil (n : Nat) (c : Char) (h : 0 < n) :
    List.replicate n c ≠ [] := by
  intro hnil
  have h0 := congrArg List.length hnil
  rw [List.length_replicate, List.length_nil] at h0
  omega

theorem range'_getD (s n j : Nat) (h : j < n) : (List.range' s n).getD j 0 = s + j := by
  rw [List.getD_eq_getElem?_getD,
    List.getElem?_eq_getElem (by simpa using h), List.getElem_range']
  simp

/-- Each produced network-call flag comes from `processLine` on some line. -/
theorem buildCalls_mem (papi : Bool) (o : Oracles) :
    ∀ (rs : List (List Char)) (i : Nat) (b : Bool),
      b ∈ buildCalls papi o rs i →
        ∃ i' r, b = (processLine papi o i' r).2 := by
  intro rs
  induction rs with
  | nil => intro i b h; simp [buildCalls] at h
  | cons r rs ih =>
    intro i b h
    simp only [buildCalls, List.mem_cons] at h
    rcases h with h | h
    · exact ⟨i, r, h⟩
    · exact ih (i + 1) b h

/-- If the remote cell of a row holds a numeric score, that score is a
rounded value (an integer number of thousandths). -/
theorem perspectiveCell_score (o : Oracles) (i : Nat) (s : List Char) (q : ℚ)
    (h : (perspectiveCell o i s).1 = .score q) : ∃ z : ℤ, q = (z : ℚ) / 1000 := by
  rw [perspectiveCell] at h
  split at h
  · simp at h
  · split at h
    · rename_i q0 _
      simp only [Cell.score.injEq] at h
      exact ⟨roundHalfEven (q0 * 1000), h ▸ rfl⟩
    · simp at h

/-! ## The claims -/

/-- C9: the sanitize function is pure and idempotent: for every string
`s`, `sanitize (sanitize s) = sanitize s` — already-safe text is
returned unchanged, and sanitizing the same raw line twice (it is a
pure function of its argument) yields identical SafeText. -/
theorem C9_sanitize_idempotent (s : List Char) :
    sanitize (sanitize s) = sanitize s :=
  sanitize_sanitize s

/-- C1: for every input whose line count and length are within the
configured maxima, with verification true, the handler produces a
table echoing the text whose rows are exactly the per-line results:
one row per line of `splitlines` (empty lines included), in input
order (row `j` is built from line `j`), with the 1-based display index
of row `j` equal to `j + 1`. -/
theorem C1_one_row_per_line (papi : Bool) (o : Oracles) (text : List Char)
    (h1 : (splitlines text).length < 52) (h2 : text.length < 125000) :
    my_form_post true papi o text =
      .table (List.range' 1 (buildRows papi o (splitlines text) 0).length)
        (buildRows papi o (splitlines text) 0) text ∧
    (buildRows papi o (splitlines text) 0).length = (splitlines text).length ∧
    (∀ j, j < (splitlines text).length →
      (buildRows papi o (splitlines text) 0).getD j defaultRow =
        (processLine papi o j ((splitlines text).getD j [])).1) ∧
    (∀ j, j < (splitlines text).length →
      (List.range' 1 (buildRows papi o (splitlines text) 0).length).getD j 0 = j + 1) := by
  have hacc : acceptCond true text := ⟨rfl, h1, h2⟩
  refine ⟨my_form_post_accept true papi o text hacc,
    buildRows_length papi o _ 0, ?_, ?_⟩
  · intro j hj
    have := buildRows_getD papi o (splitlines text) 0 j hj
    simpa using this
  · intro j hj
    rw [buildRows_length]
    rw [range'_getD 1 _ j hj]
    omega

theorem C1_witness :
    (splitlines "hi\nthere".data).length < 52 ∧ "hi\nthere".data.length < 125000 ∧
      (buildRows false o0 (splitlines "hi\nthere".data) 0).length =
        (splitlines "hi\nthere".data).length :=
  ⟨by decide, by decide,
    (C1_one_row_per_line false o0 "hi\nthere".data (by decide) (by decide)).2.1⟩

/-- C2 as stated is false: with verification false but 52 lines, the
rejection reason reported is too-many-lines, not verification-failed
(the size checks take precedence in the failure branch). -/
theorem C2_counterexample :
    my_form_post false true o0 (encodeLines 52 ['a']) = .tooManyLines 52 ∧
      Response.tooManyLines 52 ≠ Response.verificationFailed := by
  constructor
  · have hs : splitlines (encodeLines 52 ['a']) = List.replicate 52 ['a'] :=
      splitlines_encode ['a'] 52 (by omega) (by decide)
    have hrej : ¬ acceptCond false (encodeLines 52 ['a']) := by
      simp [acceptCond]
    simp [my_form_post, hrej, hs]
  · decide

/-- C2 amended: if verification returns false the request is always
rejected (no table is produced); the reason is verification-failed
whenever the line count and the length are within the maxima, while an
out-of-range size yields that size's reason instead. -/
theorem C2_verification_false (papi : Bool) (o : Oracles) (text : List Char) :
    (my_form_post false papi o text).isReject = true ∧
    ((splitlines text).length ≤ 51 → text.length ≤ 125000 →
      my_form_post false papi o text = .verificationFailed) := by
  have hrej : ¬ acceptCond false text := by simp [acceptCond]
  constructor
  · simp only [my_form_post, if_neg hrej]
    split
    · rfl
    · split <;> rfl
  · intro hL hn
    have h1 : ¬ (splitlines text).length > 51 := by omega
    have h2 : ¬ text.length > 125000 := by omega
    simp only [my_form_post, if_neg hrej, if_neg h1, if_neg h2]

theorem C2_witness :
    (splitlines "a".data).length ≤ 51 ∧ "a".data.length ≤ 125000 ∧
      my_form_post false true o0 "a".data = .verificationFailed :=
  ⟨by decide, by decide,
    (C2_verification_false true o0 "a".data).2 (by decide) (by decide)⟩

/-- C3 as stated is false: the text echoed back to the caller
(`text1=text` on the success branch) is the raw input, not its
sanitized form, as witnessed by an input that sanitization changes. -/
theorem C3_counterexample :
    (my_form_post true false o0 "<script>x</script>".data).echoOf =
        some "<script>x</script>".data ∧
      sanitize "<script>x</script>".data ≠ "<script>x</script>".data := by
  constructor
  · have hacc : acceptCond true "<script>x</script>".data := by decide
    rw [my_form_post_accept true false o0 _ hacc]
    rfl
  · have hx : sanitize "<script>x</script>".data = ['x'] := by
      simp [sanitize, untilGt, allowedTag, tagName, allowedTags]
    rw [hx]
    decide

/-- C3 amended: on every accepted request each row's stored text and
the texts handed to every scoring engine (local and remote) are the
sanitized form of that row's line; the full raw input, however, is
echoed back to the caller unsanitized (escaping is left to the
rendering collaborator). -/
theorem C3_sanitize_before_use (verify papi : Bool) (o : Oracles) (text : List Char)
    (hacc : acceptCond verify text) :
    (∀ j, j < (splitlines text).length →
      ((my_form_post verify papi o text).rowsOf.getD j defaultRow).text =
          sanitize ((splitlines text).getD j []) ∧
        ((my_form_post verify papi o text).rowsOf.getD j defaultRow).vader =
          round3 (o.vader (sanitize ((splitlines text).getD j []))) ∧
        ((my_form_post verify papi o text).rowsOf.getD j defaultRow).tbPolarity =
          round3 (o.tbPolarity (sanitize ((splitlines text).getD j []))) ∧
        ((my_form_post verify papi o text).rowsOf.getD j defaultRow).tbSubjectivity =
          round3 (o.tbSubjectivity (sanitize ((splitlines text).getD j []))) ∧
        (papi = true →
          ((my_form_post verify papi o text).rowsOf.getD j defaultRow).perspective =
            some (perspectiveCell o j (sanitize ((splitlines text).getD j []))).1)) ∧
    (my_form_post verify papi o text).echoOf = some text := by
  rw [my_form_post_accept verify papi o text hacc]
  constructor
  · intro j hj
    simp only [Response.rowsOf]
    rw [buildRows_getD papi o (splitlines text) 0 j hj]
    simp only [Nat.zero_add]
    exact ⟨rfl, rfl, rfl, rfl, fun hp => by subst hp; rfl⟩
  · rfl

theorem C3_witness :
    acceptCond true "hi".data ∧
      (my_form_post true true o0 "hi".data).echoOf = some "hi".data :=
  ⟨by decide, (C3_sanitize_before_use true true o0 "hi".data (by decide)).2⟩

/-- C4 (the claim matches the handler's own rejection message, the
code does not): an input of exactly 51 lines with verification true is
accepted and fully scored — a 51-row table is produced — although
"more than 50 lines" is supposed to be rejected as too-many-lines
(the guard reads `len(text.splitlines()) < 52`). -/
theorem C4_fifty_one_lines_accepted :
    (splitlines (encodeLines 51 ['a'])).length = 51 ∧
      (my_form_post true false o0 (encodeLines 51 ['a'])).isReject = false ∧
      (my_form_post true false o0 (encodeLines 51 ['a'])).rowsOf.length = 51 := by
  have hs : splitlines (encodeLines 51 ['a']) = List.replicate 51 ['a'] :=
    splitlines_encode ['a'] 51 (by omega) (by decide)
  have hL : (splitlines (encodeLines 51 ['a'])).length = 51 := by
    rw [hs, List.length_replicate]
  have hacc : acceptCond true (encodeLines 51 ['a']) := by
    refine ⟨rfl, by omega, ?_⟩
    rw [encodeLines_length]
    simp
  refine ⟨hL, ?_, ?_⟩
  · rw [my_form_post_accept true false o0 _ hacc]
    rfl
  · rw [my_form_post_accept true false o0 _ hacc]
    simp only [Response.rowsOf]
    rw [buildRows_length, hL]

/-- C5 as stated is false: an input of 130,052 characters — well over
the 125,000 maximum — that also has 52 lines is rejected as
too-many-lines, not too-large: the line-count check takes precedence
in the failure branch. -/
theorem C5_counterexample :
    (encodeLines 52 (List.replicate 2500 'a')).length = 130052 ∧
      my_form_post true true o0 (encodeLines 52 (List.replicate 2500 'a')) =
        .tooManyLines 52 := by
  have hnb : ∀ c ∈ List.replicate 2500 'a', isLineBreak c = false := by
    intro c hc
    rw [List.eq_of_mem_replicate hc]
    decide
  have hs : splitlines (encodeLines 52 (List.replicate 2500 'a')) =
      List.replicate 52 (List.replicate 2500 'a') :=
    splitlines_encode _ 52 (by omega) hnb
  constructor
  · rw [encodeLines_length, List.length_replicate]
  · have hrej : ¬ acceptCond true (encodeLines 52 (List.replicate 2500 'a')) := by
      rintro ⟨-, h, -⟩
      rw [hs, List.length_replicate] at h
      omega
    simp only [my_form_post, if_neg hrej, hs, List.length_replicate]
    norm_num

/-- C5 amended: a request whose length exceeds 125,000 (the code
measures Python string length, i.e. characters, of the whole text) and
whose line count is within the maximum is rejected as too-large
carrying the measured length, and no scoring work (in particular no
network call) is performed. -/
theorem C5_too_large (verify papi : Bool) (o : Oracles) (text : List Char)
    (h1 : text.length > 125000) (h2 : (splitlines text).length ≤ 51) :
    my_form_post verify papi o text = .tooLarge text.length ∧
      analyzeCalls verify papi o text = [] := by
  have hacc : ¬ acceptCond verify text := by
    rw [acceptCond]
    rintro ⟨-, -, h⟩
    omega
  have hL : ¬ (splitlines text).length > 51 := by omega
  refine ⟨?_, by simp [analyzeCalls, hacc]⟩
  simp only [my_form_post, if_neg hacc, if_neg hL, if_pos h1]

theorem C5_witness :
    (List.replicate 125001 'a').length > 125000 ∧
      (splitlines (List.replicate 125001 'a')).length ≤ 51 ∧
      my_form_post true true o0 (List.replicate 125001 'a') =
        .tooLarge (List.replicate 125001 'a').length := by
  have h1 : (List.replicate 125001 'a').length > 125000 := by
    rw [List.length_replicate]
    omega
  have hs : splitlines (List.replicate 125001 'a') = [List.replicate 125001 'a'] :=
    splitlines_single _ (replicate_char_ne_nil 125001 'a' (by omega))
      (fun c hc => by rw [List.eq_of_mem_replicate hc]; decide)
  have h2 : (splitlines (List.replicate 125001 'a')).length ≤ 51 := by
    rw [hs, List.length_singleton]
    omega
  exact ⟨h1, h2, (C5_too_large true true o0 _ h1 h2).1⟩

/-- An oracle assembly whose remote engine always fails. -/
def oErr : Oracles := { o0 with perspective := fun _ _ => .error "boom".data }

/-- C6: on an accepted request with the remote engine enabled, a
remote failure with text `e` on line `i` is recorded as the failure
cell `ERROR: e` in row `i`'s remote cell only: row `i`'s local cells
still hold the rounded local scores, the rows of other lines do not
depend on line `i`'s remote outcome, and every row carries exactly one
remote cell (the local engines' cells being structural fields, every
enabled engine contributes exactly one ScoreResult per row). -/
theorem C6_remote_failure_isolated (verify : Bool) (o : Oracles) (text : List Char)
    (e : List Char) (i : Nat)
    (hacc : acceptCond verify text)
    (hi : i < (splitlines text).length)
    (hlen : (sanitize ((splitlines text).getD i [])).length ≤ 2900)
    (herr : o.perspective i (sanitize ((splitlines text).getD i [])) = .error e) :
    ((my_form_post verify true o text).rowsOf.getD i defaultRow).perspective =
        some (.err (errHead ++ e)) ∧
    ((my_form_post verify true o text).rowsOf.getD i defaultRow).vader =
        round3 (o.vader (sanitize ((splitlines text).getD i []))) ∧
    ((my_form_post verify true o text).rowsOf.getD i defaultRow).tbPolarity =
        round3 (o.tbPolarity (sanitize ((splitlines text).getD i []))) ∧
    ((my_form_post verify true o text).rowsOf.getD i defaultRow).tbSubjectivity =
        round3 (o.tbSubjectivity (sanitize ((splitlines text).getD i []))) ∧
    (∀ o' : Oracles, o'.vader = o.vader → o'.tbPolarity = o.tbPolarity →
      o'.tbSubjectivity = o.tbSubjectivity →
      (∀ j, j ≠ i → o'.perspective j = o.perspective j) →
      ∀ j, j < (splitlines text).length → j ≠ i →
        (my_form_post verify true o' text).rowsOf.getD j defaultRow =
          (my_form_post verify true o text).rowsOf.getD j defaultRow) ∧
    (∀ row ∈ (my_form_post verify true o text).rowsOf,
      row.perspective.isSome = true) := by
  rw [my_form_post_accept verify true o text hacc]
  simp only [Response.rowsOf]
  rw [buildRows_getD true o (splitlines text) 0 i hi]
  simp only [Nat.zero_add]
  have hcell : perspectiveCell o i (sanitize ((splitlines text).getD i [])) =
      (.err (errHead ++ e), true) := by
    have hgt : ¬ (sanitize ((splitlines text).getD i [])).length > 2900 := by omega
    simp only [perspectiveCell, if_neg hgt, herr]
  refine ⟨?_, rfl, rfl, rfl, ?_, ?_⟩
  · show some (perspectiveCell o i (sanitize ((splitlines text).getD i []))).1 =
        some (.err (errHead ++ e))
    rw [hcell]
  · intro o' hv h2 h3 hp j hj hne
    rw [my_form_post_accept verify true o' text hacc]
    simp only [Response.rowsOf]
    rw [buildRows_getD true o' (splitlines text) 0 j hj,
      buildRows_getD true o (splitlines text) 0 j hj]
    simp only [Nat.zero_add]
    rw [processLine_congr true o o' i hp hv h2 h3 j hne]
  · intro row hrow
    obtain ⟨i', r, hr⟩ := buildRows_mem true o (splitlines text) 0 row hrow
    subst hr
    rfl

theorem C6_witness :
    acceptCond true "x\ny".data ∧ 0 < (splitlines "x\ny".data).length ∧
      (sanitize ((splitlines "x\ny".data).getD 0 [])).length ≤ 2900 ∧
      oErr.perspective 0 (sanitize ((splitlines "x\ny".data).getD 0 [])) =
        .error "boom".data ∧
      ((my_form_post true true oErr "x\ny".data).rowsOf.getD 0 defaultRow).perspective =
        some (.err (errHead ++ "boom".data)) := by
  have hsan : sanitize ((splitlines "x\ny".data).getD 0 []) = ['x'] := by
    rw [show (splitlines "x\ny".data).getD 0 [] = ['x'] from by decide]
    exact sanitize_of_no_lt ['x'] (by decide)
  have hacc : acceptCond true "x\ny".data := by decide
  have hi : 0 < (splitlines "x\ny".data).length := by decide
  have hlen : (sanitize ((splitlines "x\ny".data).getD 0 [])).length ≤ 2900 := by
    rw [hsan]
    simp
  have herr : oErr.perspective 0 (sanitize ((splitlines "x\ny".data).getD 0 [])) =
      .error "boom".data := rfl
  exact ⟨hacc, hi, hlen, herr,
    (C6_remote_failure_isolated true oErr "x\ny".data "boom".data 0
      hacc hi hlen herr).1⟩

/-- C7: on an accepted request with remote opt-in, a line whose
sanitized text is longer than 2900 characters gets a failure remote
cell from the local pre-check (`ERROR: Line too long (max 2500
characters)`), no analyze network call is attempted for that line, and
its local cells still hold the rounded local scores. -/
theorem C7_precheck_no_call (verify : Bool) (o : Oracles) (text : List Char) (i : Nat)
    (hacc : acceptCond verify text)
    (hi : i < (splitlines text).length)
    (hlen : (sanitize ((splitlines text).getD i [])).length > 2900) :
    ((my_form_post verify true o text).rowsOf.getD i defaultRow).perspective =
        some (.err (errHead ++ lineTooLongMsg)) ∧
    (analyzeCalls verify true o text).getD i false = false ∧
    ((my_form_post verify true o text).rowsOf.getD i defaultRow).vader =
        round3 (o.vader (sanitize ((splitlines text).getD i []))) ∧
    ((my_form_post verify true o text).rowsOf.getD i defaultRow).tbPolarity =
        round3 (o.tbPolarity (sanitize ((splitlines text).getD i []))) ∧
    ((my_form_post verify true o text).rowsOf.getD i defaultRow).tbSubjectivity =
        round3 (o.tbSubjectivity (sanitize ((splitlines text).getD i []))) := by
  rw [my_form_post_accept verify true o text hacc,
    analyzeCalls_accept verify true o text hacc]
  simp only [Response.rowsOf]
  rw [buildRows_getD true o (splitlines text) 0 i hi,
    buildCalls_getD true o (splitlines text) 0 i hi]
  simp only [Nat.zero_add]
  have hcell : perspectiveCell o i (sanitize ((splitlines text).getD i [])) =
      (.err (errHead ++ lineTooLongMsg), false) := by
    simp only [perspectiveCell, if_pos hlen]
  refine ⟨?_, ?_, rfl, rfl, rfl⟩
  · show some (perspectiveCell o i (sanitize ((splitlines text).getD i []))).1 =
        some (.err (errHead ++ lineTooLongMsg))
    rw [hcell]
  · show (perspectiveCell o i (sanitize ((splitlines text).getD i []))).2 = false
    rw [hcell]

theorem C7_witness :
    acceptCond true (List.replicate 2901 'a') ∧
      0 < (splitlines (List.replicate 2901 'a')).length ∧
      (sanitize ((splitlines (List.replicate 2901 'a')).getD 0 [])).length > 2900 ∧
      ((my_form_post true true o0 (List.replicate 2901 'a')).rowsOf.getD 0
          defaultRow).perspective =
        some (.err (errHead ++ lineTooLongMsg)) := by
  have hs : splitlines (List.replicate 2901 'a') = [List.replicate 2901 'a'] :=
    splitlines_single _ (replicate_char_ne_nil 2901 'a' (by omega))
      (fun c hc => by rw [List.eq_of_mem_replicate hc]; decide)
  have hsan : sanitize ((splitlines (List.replicate 2901 'a')).getD 0 []) =
      List.replicate 2901 'a' := by
    rw [hs, List.getD_cons_zero]
    refine sanitize_of_no_lt _ ?_
    intro hm
    exact absurd (List.eq_of_mem_replicate hm) (by decide)
  have hacc : acceptCond true (List.replicate 2901 'a') := by
    refine ⟨rfl, ?_, ?_⟩
    · rw [hs, List.length_singleton]
      omega
    · rw [List.length_replicate]
      omega
  have hi : 0 < (splitlines (List.replicate 2901 'a')).length := by
    rw [hs, List.length_singleton]
    omega
  have hlen : (sanitize ((splitlines (List.replicate 2901 'a')).getD 0 [])).length
      > 2900 := by
    rw [hsan, List.length_replicate]
    omega
  exact ⟨hacc, hi, hlen,
    (C7_precheck_no_call true o0 (List.replicate 2901 'a') 0 hacc hi hlen).1⟩

/-- C8: on an accepted request with the remote opt-in flag false, no
row has a perspective cell (so the table has no remote-engine column)
and no analyze network call is attempted during the request. -/
theorem C8_no_remote_column (verify : Bool) (o : Oracles) (text : List Char)
    (hacc : acceptCond verify text) :
    (∀ row ∈ (my_form_post verify false o text).rowsOf, row.perspective = none) ∧
    (∀ b ∈ analyzeCalls verify false o text, b = false) := by
  rw [my_form_post_accept verify false o text hacc,
    analyzeCalls_accept verify false o text hacc]
  simp only [Response.rowsOf]
  constructor
  · intro row hrow
    obtain ⟨i', r, hr⟩ := buildRows_mem false o (splitlines text) 0 row hrow
    subst hr
    rfl
  · intro b hb
    obtain ⟨i', r, hb'⟩ := buildCalls_mem false o (splitlines text) 0 b hb
    subst hb'
    rfl

theorem C8_witness :
    acceptCond true "hi".data ∧
      (processLine false o0 0 "hi".data).1.perspective = none := by
  have hmem : (processLine false o0 0 "hi".data).1 ∈
      (my_form_post true false o0 "hi".data).rowsOf := by
    rw [my_form_post_accept true false o0 _ (by decide)]
    simp only [Response.rowsOf]
    rw [show splitlines "hi".data = ["hi".data] from by decide]
    simp [buildRows]
  exact ⟨by decide,
    (C8_no_remote_column true o0 "hi".data (by decide)).1 _ hmem⟩

/-- C10: every numeric score stored in a produced row is the
`round(x, 3)` of the engine's raw output on that row's text — an
integer number of thousandths — so raw engine precision never reaches
the table; this holds for the two TextBlob cells, the VADER cell, and
any successful remote cell. -/
theorem C10_scores_rounded (verify papi : Bool) (o : Oracles) (text : List Char)
    (row : ResultRow) (hrow : row ∈ (my_form_post verify papi o text).rowsOf) :
    row.vader = round3 (o.vader row.text) ∧
    row.tbPolarity = round3 (o.tbPolarity row.text) ∧
    row.tbSubjectivity = round3 (o.tbSubjectivity row.text) ∧
    (∃ z : ℤ, row.vader = (z : ℚ) / 1000) ∧
    (∃ z : ℤ, row.tbPolarity = (z : ℚ) / 1000) ∧
    (∃ z : ℤ, row.tbSubjectivity = (z : ℚ) / 1000) ∧
    (∀ q : ℚ, row.perspective = some (.score q) →
      ∃ z : ℤ, q = (z : ℚ) / 1000) := by
  by_cases hacc : acceptCond verify text
  case neg =>
    exfalso
    have hempty : (my_form_post verify papi o text).rowsOf = [] := by
      simp only [my_form_post, if_neg hacc]
      split
      · rfl
      · split <;> rfl
    rw [hempty] at hrow
    simp at hrow
  case pos =>
    rw [my_form_post_accept verify papi o text hacc] at hrow
    simp only [Response.rowsOf] at hrow
    obtain ⟨i', r, hr⟩ := buildRows_mem papi o (splitlines text) 0 row hrow
    subst hr
    refine ⟨rfl, rfl, rfl, ⟨_, rfl⟩, ⟨_, rfl⟩, ⟨_, rfl⟩, ?_⟩
    intro q hq
    cases papi with
    | false =>
      rw [show (processLine false o i' r).1.perspective = (none : Option Cell)
        from rfl] at hq
      exact Option.noConfusion hq
    | true =>
      rw [show (processLine true o i' r).1.perspective =
        some (perspectiveCell o i' (sanitize r)).1 from rfl] at hq
      simp only [Option.some.injEq] at hq
      exact perspectiveCell_score o i' (sanitize r) q hq

theorem C10_witness :
    (processLine false o0 0 "hi".data).1 ∈
        (my_form_post true false o0 "hi".data).rowsOf ∧
      ∃ z : ℤ, (processLine false o0 0 "hi".data).1.vader = (z : ℚ) / 1000 := by
  have hmem : (processLine false o0 0 "hi".data).1 ∈
      (my_form_post true false o0 "hi".data).rowsOf := by
    rw [my_form_post_accept true false o0 _ (by decide)]
    simp only [Response.rowsOf]
    rw [show splitlines "hi".data = ["hi".data] from by decide]
    simp [buildRows]
  exact ⟨hmem,
    (C10_scores_rounded true false o0 "hi".data _ hmem).2.2.2.1⟩
